import Mathlib

/-!
Verification of the presetphoto client-side image pipeline
(`src/lib/wasmProcessor.ts`, the version whose interface carries
`qualityPreference` — the one the application page drives).

The embedding models numbers as exact rationals (`ℚ`), pixel data as
records of natural-number channels, and the mutable canvas as the ordered
list of drawing commands issued against it (a `fillText` command stands
for the glyphs it would rasterize).  Encoding a canvas at a JPEG quality
is modelled by an oracle `Canvas → ℚ → ℕ` giving the byte size the codec
would produce; the encoder's search logic is embedded exactly.
-/

/-- JavaScript `Math.round` on the nonnegative values used here:
round half up. -/
def jsRound (q : ℚ) : ℤ := ⌊q + 1/2⌋

/-- `Math.round(x * 100) / 100`, used for the reported `sizeKB`. -/
def roundTo2 (q : ℚ) : ℚ := (jsRound (q * 100) : ℚ) / 100

/-! ### Hex color parsing (`hexToRgb`) -/

/-- One character class of the regex `[a-f\d]` under the `/i` flag. -/
def isHexDigitChar (c : Char) : Bool :=
  c.isDigit || (decide ('a' ≤ c) && decide (c ≤ 'f')) || (decide ('A' ≤ c) && decide (c ≤ 'F'))

/-- Value of a single hex digit, as `parseInt(·, 16)` assigns it. -/
def hexVal (c : Char) : ℕ :=
  if c.isDigit then c.toNat - 48
  else if 'a' ≤ c then c.toNat - 87
  else c.toNat - 55

/-- The characters the regex `^#?...$` has to account for after the
optional leading `#` is consumed. -/
def hexBody (s : String) : List Char :=
  match s.toList with
  | '#' :: rest => rest
  | cs => cs

/-- `hexToRgb`: parse `#RRGGBB` (the `#` optional, case-insensitive);
any non-matching string yields `(0, 0, 0)`. -/
def hexToRgb (s : String) : ℕ × ℕ × ℕ :=
  match hexBody s with
  | [c1, c2, c3, c4, c5, c6] =>
    if [c1, c2, c3, c4, c5, c6].all isHexDigitChar then
      (16 * hexVal c1 + hexVal c2, 16 * hexVal c3 + hexVal c4, 16 * hexVal c5 + hexVal c6)
    else (0, 0, 0)
  | _ => (0, 0, 0)

/-- Whether a string matches the regex `/^#?([a-f\d]{2})([a-f\d]{2})([a-f\d]{2})$/i`. -/
def matchesHexColor (s : String) : Bool :=
  (hexBody s).length == 6 && (hexBody s).all isHexDigitChar

/-! ### Signature recoloring (`applySignatureColor`) -/

/-- One RGBA pixel of an `ImageData` buffer. -/
structure RGBA where
  r : ℕ
  g : ℕ
  b : ℕ
  a : ℕ
  deriving DecidableEq, Repr

/-- `(0.299 * r + 0.587 * g + 0.114 * b) / 255`. -/
def luminance (p : RGBA) : ℚ :=
  (0.299 * p.r + 0.587 * p.g + 0.114 * p.b) / 255

/-- The per-pixel map of `applySignatureColor`, with ink threshold 0.7. -/
def recolorPixel (target : ℕ × ℕ × ℕ) (p : RGBA) : RGBA :=
  if p.a < 128 then ⟨255, 255, 255, 255⟩
  else
    let lum := luminance p
    if lum < 0.7 then
      let intensity := 1 - lum / 0.7
      ⟨(jsRound (255 - (255 - (target.1 : ℚ)) * intensity)).toNat,
       (jsRound (255 - (255 - (target.2.1 : ℚ)) * intensity)).toNat,
       (jsRound (255 - (255 - (target.2.2 : ℚ)) * intensity)).toNat,
       255⟩
    else ⟨255, 255, 255, 255⟩

/-- `applySignatureColor`: recolor every pixel of the buffer toward the
color parsed from `targetColor`. -/
def applySignatureColor (targetColor : String) (data : List RGBA) : List RGBA :=
  data.map (recolorPixel (hexToRgb targetColor))

/-! ### Date band -/

/-- `getDateBandHeight`: `Math.round(targetHeight * 0.08)`. -/
def getDateBandHeight (targetHeight : ℕ) : ℕ :=
  (jsRound ((targetHeight : ℚ) * 0.08)).toNat

/-- The fields `new Date()` contributes: `getDate()`, `getMonth()`
(0-based), `getFullYear()`. -/
structure JsDate where
  day : ℕ
  monthIndex : ℕ
  year : ℕ
  deriving DecidableEq, Repr

/-- `String(n).padStart(2, '0')`. -/
def pad2 (n : ℕ) : String :=
  if n < 10 then "0" ++ toString n else toString n

/-- The `DD-MM-YYYY` string `drawDateBand` renders. -/
def formatDate (d : JsDate) : String :=
  pad2 d.day ++ "-" ++ pad2 (d.monthIndex + 1) ++ "-" ++ toString d.year

/-! ### Canvas model -/

/-- The source canvas the final `drawImage` reads from: either the decoded
bitmap drawn as is, or the white-filled canvas holding the bitmap rotated
by the given angle (its rounded trigonometric dimensions are kept
symbolic — they never feed back into the final canvas dimensions). -/
inductive SourceCanvas where
  | plain (w h : ℕ)
  | rotated (w h : ℕ) (rotationDeg : ℚ)
  deriving DecidableEq, Repr

/-- One drawing command issued against a 2D context. -/
inductive CanvasOp where
  | fillRect (color : String) (x y w h : ℚ)
  | drawImageFull (src : SourceCanvas) (dx dy dw dh : ℚ)
  | drawImageSub (src : SourceCanvas) (sx sy sw sh dx dy dw dh : ℚ)
  | recolor (targetColor : String)
  | fillText (text : String) (x y : ℚ) (fontSize : ℤ)
  deriving DecidableEq, Repr

/-- A canvas: its dimensions and the ordered drawing commands that
determine its pixels. -/
structure Canvas where
  width : ℕ
  height : ℕ
  ops : List CanvasOp
  deriving DecidableEq, Repr

/-- `drawDateBand`: white-fill the band rows, then draw today's date
bold and centered, font size `max(12, round(bandHeight * 0.6))`. -/
def drawDateBand (canvasWidth bandHeight : ℕ) (today : JsDate) : List CanvasOp :=
  [.fillRect "#FFFFFF" 0 0 (canvasWidth : ℚ) (bandHeight : ℚ),
   .fillText (formatDate today) ((canvasWidth : ℚ) / 2) ((bandHeight : ℚ) / 2)
     (max 12 (jsRound ((bandHeight : ℚ) * 0.6)))]

/-- A rectangle (source or destination of a `drawImage`). -/
structure Rect where
  x : ℚ
  y : ℚ
  w : ℚ
  h : ℚ
  deriving DecidableEq, Repr

/-- The center-crop rectangle computed by the Canvas-API fallback path
when no crop is supplied (`sx, sy, sw, sh` of its 9-argument
`drawImage`). -/
def strategy2CenterCrop (srcW srcH targetRatio : ℚ) : Rect :=
  let imgRatio := srcW / srcH
  if imgRatio > targetRatio then
    ⟨(srcW - srcH * targetRatio) / 2, 0, srcH * targetRatio, srcH⟩
  else
    ⟨0, (srcH - srcW / targetRatio) / 2, srcW, srcW / targetRatio⟩

/-! ### Size-targeted encoder (`findOptimalQuality`) -/

/-- The binary-search state: quality bounds and the best in-bounds blob
recorded so far, as `(quality, byte size)`. -/
structure SearchState where
  low : ℚ
  high : ℚ
  best : Option (ℚ × ℕ)
  deriving DecidableEq, Repr

/-- Record a freshly encoded blob as best when it lies within
`[minBytes, maxBytes]` and is strictly closer to `targetBytes` than the
recorded one. -/
def updateBest (minB maxB targetB : ℚ) (q : ℚ) (s : ℕ) (best : Option (ℚ × ℕ)) :
    Option (ℚ × ℕ) :=
  if minB ≤ (s : ℚ) ∧ (s : ℚ) ≤ maxB then
    match best with
    | none => some (q, s)
    | some p => if |(s : ℚ) - targetB| < |(p.2 : ℚ) - targetB| then some (q, s) else best
  else best

/-- The binary-search loop: while attempts remain (the fuel starts at the
source's `maxAttempts = 12`) and the interval is wider than `0.01`, encode
at the midpoint, record it if best, and move the bound `low`/`high`
according to `size < targetBytes`.  Also returns the list of qualities
encoded at. -/
def searchLoop (size : ℚ → ℕ) (minB maxB targetB : ℚ) :
    ℕ → SearchState → SearchState × List ℚ
  | 0, st => (st, [])
  | fuel + 1, st =>
    if st.high - st.low > 0.01 then
      let q := (st.low + st.high) / 2
      let s := size q
      let st' : SearchState :=
        { low := if (s : ℚ) < targetB then q else st.low
          high := if (s : ℚ) < targetB then st.high else q
          best := updateBest minB maxB targetB q s st.best }
      let rest := searchLoop size minB maxB targetB fuel st'
      (rest.1, q :: rest.2)
    else (st, [])

/-- The fallback loop for a too-large final blob:
`while (q > 0.1 && bestBlob.size > maxBytes) { q -= 0.05; bestBlob = getBlob(q) }`.
Returns the final `(quality, size)` and the qualities encoded at. -/
def decreaseLoop (size : ℚ → ℕ) (maxB : ℚ) (q : ℚ) (cur : ℕ) : (ℚ × ℕ) × List ℚ :=
  if h : 0.1 < q ∧ maxB < (cur : ℚ) then
    let q' := q - 0.05
    let rest := decreaseLoop size maxB q' (size q')
    (rest.1, q' :: rest.2)
  else ((q, cur), [])
termination_by (⌈(q - 0.1) * 20⌉).toNat
decreasing_by
  have h1 : (0 : ℚ) < (q - 0.1) * 20 := by
    have := h.1
    nlinarith
  have h2 : (1 : ℤ) ≤ ⌈(q - 0.1) * 20⌉ := Int.ceil_pos.mpr h1
  have h3 : (q - 0.05 - 0.1) * 20 = (q - 0.1) * 20 - 1 := by ring
  rw [h3, Int.ceil_sub_one]
  omega

/-- The fallback loop for a too-small final blob:
`while (q < 1.0 && bestBlob.size < minBytes)` increase `q` by `0.05`,
accept the new blob only when its size is `≤ maxBytes`, else break.
`bq` is the quality the current blob `cur` was encoded at. -/
def increaseLoop (size : ℚ → ℕ) (minB maxB : ℚ) (q bq : ℚ) (cur : ℕ) : (ℚ × ℕ) × List ℚ :=
  if h : q < 1 ∧ (cur : ℚ) < minB then
    let q' := q + 0.05
    let s := size q'
    if (s : ℚ) ≤ maxB then
      let rest := increaseLoop size minB maxB q' q' s
      (rest.1, q' :: rest.2)
    else ((bq, cur), [q'])
  else ((bq, cur), [])
termination_by (⌈(1 - q) * 20⌉).toNat
decreasing_by
  have h1 : (0 : ℚ) < (1 - q) * 20 := by
    have := h.1
    nlinarith
  have h2 : (1 : ℤ) ≤ ⌈(1 - q) * 20⌉ := Int.ceil_pos.mpr h1
  have h3 : (1 - (q + 0.05)) * 20 = (1 - q) * 20 - 1 := by ring
  rw [h3, Int.ceil_sub_one]
  omega

/-- `Math.max(0, Math.min(1, (qualityPreference - 30) / 70))`. -/
def normalizedPreference (qp : ℚ) : ℚ := max 0 (min 1 ((qp - 30) / 70))

/-- What one `findOptimalQuality` run produced: the returned blob's byte
size and the quality it was encoded at, plus the run's target bytes, the
preference used, the search's recorded best, its final bounds, and the
qualities encoded at during the search and during the fallback phase. -/
structure QualityResult where
  size : ℕ
  quality : ℚ
  target : ℚ
  preference : ℚ
  best : Option (ℚ × ℕ)
  low : ℚ
  high : ℚ
  searchTrace : List ℚ
  fallbackTrace : List ℚ
  deriving DecidableEq, Repr

/-- `findOptimalQuality`: binary search over quality in `[0.1, 1.0]`
(at most 12 attempts, stopping once the interval is `≤ 0.01` wide) for a
blob inside `[minBytes, maxBytes]` closest to the preference-interpolated
target; if none was recorded, encode at the final midpoint and run the
decrease / increase fallback loops. -/
def findOptimalQuality (size : ℚ → ℕ) (minSizeKB maxSizeKB : ℕ) (qualityPreference : ℚ) :
    QualityResult :=
  let maxB : ℚ := maxSizeKB * 1024
  let minB : ℚ := minSizeKB * 1024
  let targetB := minB + (maxB - minB) * normalizedPreference qualityPreference
  let run := searchLoop size minB maxB targetB 12 ⟨0.1, 1.0, none⟩
  let st := run.1
  match st.best with
  | some p =>
    ⟨p.2, p.1, targetB, qualityPreference, st.best, st.low, st.high, run.2, []⟩
  | none =>
    let fq := (st.low + st.high) / 2
    let s0 := size fq
    if maxB < (s0 : ℚ) then
      let rest := decreaseLoop size maxB fq s0
      ⟨rest.1.2, rest.1.1, targetB, qualityPreference, none, st.low, st.high, run.2,
        fq :: rest.2⟩
    else if (s0 : ℚ) < minB then
      let rest := increaseLoop size minB maxB fq fq s0
      ⟨rest.1.2, rest.1.1, targetB, qualityPreference, none, st.low, st.high, run.2,
        fq :: rest.2⟩
    else ⟨s0, fq, targetB, qualityPreference, none, st.low, st.high, run.2, [fq]⟩

/-! ### The orchestrator (`processImageWASM`, createImageBitmap path) -/

/-- The optional crop rectangle of a request. -/
structure CropSpec where
  x : ℚ
  y : ℚ
  width : ℚ
  height : ℚ
  rotation : Option ℚ
  deriving DecidableEq, Repr

/-- The request options (`ProcessOptions`). -/
structure ProcessOptions where
  targetWidth : ℕ
  targetHeight : ℕ
  minSizeKB : ℕ
  maxSizeKB : ℕ
  addDate : Bool
  signatureColor : Option String
  qualityPreference : Option ℚ
  cropArea : Option CropSpec
  deriving DecidableEq, Repr

/-- The response (`ProcessResult`), with the encoded run and the final
canvas exposed so properties about them can be stated. -/
structure ProcessResult where
  blob : QualityResult
  width : ℕ
  height : ℕ
  sizeKB : ℚ
  canvas : Canvas
  deriving DecidableEq, Repr

/-- The date-band height reserved for this request:
`options.addDate ? getDateBandHeight(options.targetHeight) : 0`. -/
def bandOf (options : ProcessOptions) : ℕ :=
  if options.addDate then getDateBandHeight options.targetHeight else 0

/-- `processImageWASM` (the createImageBitmap strategy): decode the file
(here: its dimensions `srcW × srcH`), rotate into a white-filled canvas if
the crop carries a nonzero rotation, allocate the `targetWidth ×
targetHeight` canvas, white-fill it, draw the crop rectangle — or, with no
crop, the whole source — into the region below the reserved band, recolor
if a signature color is set, draw the date band, and encode via
`findOptimalQuality` with preference `options.qualityPreference ?? 85`.
`encSize` is the codec oracle giving the encoded byte size of a canvas at
a quality. -/
def processImageWASM (srcW srcH : ℕ) (options : ProcessOptions) (today : JsDate)
    (encSize : Canvas → ℚ → ℕ) : Except String ProcessResult :=
  let rotation := (options.cropArea.bind CropSpec.rotation).getD 0
  let sourceCanvas := if rotation = 0 then SourceCanvas.plain srcW srcH
    else SourceCanvas.rotated srcW srcH rotation
  let tw := options.targetWidth
  let th := options.targetHeight
  let band := bandOf options
  let iah := th - band
  let drawOp : CanvasOp :=
    match options.cropArea with
    | some c => .drawImageSub sourceCanvas c.x c.y c.width c.height
        0 (band : ℚ) (tw : ℚ) (iah : ℚ)
    | none => .drawImageFull sourceCanvas 0 (band : ℚ) (tw : ℚ) (iah : ℚ)
  let colorOps : List CanvasOp :=
    match options.signatureColor with
    | some col => [.recolor col]
    | none => []
  let dateOps : List CanvasOp := if options.addDate then drawDateBand tw band today else []
  let canvas : Canvas :=
    ⟨tw, th, .fillRect "#FFFFFF" 0 0 (tw : ℚ) (th : ℚ) :: drawOp :: (colorOps ++ dateOps)⟩
  let q := findOptimalQuality (encSize canvas) options.minSizeKB options.maxSizeKB
    (options.qualityPreference.getD 85)
  .ok { blob := q, width := tw, height := th,
        sizeKB := roundTo2 ((q.size : ℚ) / 1024), canvas := canvas }

/-- The second drawing command of the final canvas: the one that places
the image content. -/
def imageDrawOp (r : ProcessResult) : Option CanvasOp := r.canvas.ops[1]?

/-- The source rectangle a draw command reads (for a 5-argument
`drawImage` from an unrotated source, the whole bitmap). -/
def opSrcRect : CanvasOp → Option Rect
  | .drawImageFull (.plain w h) _ _ _ _ => some ⟨0, 0, (w : ℚ), (h : ℚ)⟩
  | .drawImageSub _ sx sy sw sh _ _ _ _ => some ⟨sx, sy, sw, sh⟩
  | _ => none

/-- The destination rectangle a draw command writes. -/
def opDestRect : CanvasOp → Option Rect
  | .drawImageFull _ dx dy dw dh => some ⟨dx, dy, dw, dh⟩
  | .drawImageSub _ _ _ _ _ dx dy dw dh => some ⟨dx, dy, dw, dh⟩
  | _ => none

/-- Whether the pipeline returned a result. -/
def isOkResult (e : Except String ProcessResult) : Bool :=
  match e with
  | .ok _ => true
  | .error _ => false

/-! ### Concrete fixtures used by witnesses and counterexamples -/

/-- A codec oracle returning 20 KiB for every canvas and quality. -/
def encFixed : Canvas → ℚ → ℕ := fun _ _ => 20480

/-- A size oracle for an incompressible canvas: every quality yields a
gigabyte-sized blob. -/
def constBillion : ℚ → ℕ := fun _ => 1000000000

/-- 11 October 2026 (`getMonth() = 9`). -/
def d0 : JsDate := ⟨11, 9, 2026⟩

/-- 12 October 2026. -/
def d1 : JsDate := ⟨12, 9, 2026⟩

/-- 100×100 request, no crop, no band, no color, default preference. -/
def optsNoCrop : ProcessOptions := ⟨100, 100, 10, 50, false, none, none, none⟩

/-- 200×230 request, 10–50 KB, nothing optional set. -/
def optsPlain : ProcessOptions := ⟨200, 230, 10, 50, false, none, none, none⟩

/-- 200×230 request with the date band enabled. -/
def optsDate : ProcessOptions := ⟨200, 230, 10, 50, true, none, none, none⟩

/-- An inverted byte range: minimum 50 KB, maximum 10 KB. -/
def optsBad : ProcessOptions := ⟨200, 230, 50, 10, false, none, none, none⟩

/-! ### General lemmas -/

theorem jsRound_natCast (n : ℕ) : jsRound (n : ℚ) = n := by
  unfold jsRound
  have h : ((n : ℚ)) + 1/2 = ((n : ℤ) : ℚ) + 1/2 := by push_cast; ring
  rw [h, Int.floor_int_add]
  norm_num

/-! ### Claim C1 -/

/-- Claim C1: every successfully processed request returns a result whose
`width` equals `targetWidth` and whose `height` equals `targetHeight`
exactly — also when `addDateBand` is set, the band being carved out of
`targetHeight` — and the final canvas itself has exactly those
dimensions. -/
theorem C1_output_dimensions (srcW srcH : ℕ) (options : ProcessOptions) (today : JsDate)
    (encSize : Canvas → ℚ → ℕ) :
    (processImageWASM srcW srcH options today encSize).toOption.map
        (fun r => (r.width, r.height, r.canvas.width, r.canvas.height)) =
      some (options.targetWidth, options.targetHeight,
        options.targetWidth, options.targetHeight) := rfl

/-! ### Claim C3 -/

/-- Claim C3: the signature recolorer sends mostly transparent pixels
(`alpha < 128`) to opaque white; pixels with luminance `L < 0.7` to
`round(255 - (255 - targetChannel) * (1 - L / 0.7))` per channel with
alpha 255 — so `L = 0` yields exactly the target color — and pixels with
`L ≥ 0.7` to opaque white. -/
theorem C3_recolor_map (t : ℕ × ℕ × ℕ) (p : RGBA) :
    (p.a < 128 → recolorPixel t p = ⟨255, 255, 255, 255⟩) ∧
    (128 ≤ p.a → luminance p < 0.7 →
      recolorPixel t p =
        ⟨(jsRound (255 - (255 - (t.1 : ℚ)) * (1 - luminance p / 0.7))).toNat,
         (jsRound (255 - (255 - (t.2.1 : ℚ)) * (1 - luminance p / 0.7))).toNat,
         (jsRound (255 - (255 - (t.2.2 : ℚ)) * (1 - luminance p / 0.7))).toNat, 255⟩ ∧
      (luminance p = 0 → recolorPixel t p = ⟨t.1, t.2.1, t.2.2, 255⟩)) ∧
    (128 ≤ p.a → 0.7 ≤ luminance p → recolorPixel t p = ⟨255, 255, 255, 255⟩) := by
  refine ⟨fun h => by simp [recolorPixel, h], fun h128 hlum => ?_, fun h128 hlum => ?_⟩
  · have hna : ¬ p.a < 128 := by omega
    refine ⟨by simp [recolorPixel, hna, hlum], fun h0 => ?_⟩
    have e1 : ∀ c : ℕ, (255 : ℚ) - (255 - (c : ℚ)) * (1 - luminance p / 0.7) = (c : ℚ) := by
      intro c
      rw [h0]
      ring
    simp only [recolorPixel, if_neg hna, if_pos hlum, e1]
    simp [jsRound_natCast]
  · have hna : ¬ p.a < 128 := by omega
    have hnl : ¬ luminance p < 0.7 := not_lt.mpr hlum
    simp [recolorPixel, hna, hnl]

/-- Witness for C3 at the spec's Scenario C: target `(0, 0, 255)` on the
opaque pixel `(10, 10, 10)` gives `(14, 14, 255, 255)`. -/
theorem C3_recolor_map_witness :
    128 ≤ (255 : ℕ) ∧ luminance ⟨10, 10, 10, 255⟩ < 0.7 ∧
    recolorPixel (0, 0, 255) ⟨10, 10, 10, 255⟩ = ⟨14, 14, 255, 255⟩ := by
  have hlv : luminance ⟨10, 10, 10, 255⟩ = 2/51 := by norm_num [luminance]
  have hl : luminance ⟨10, 10, 10, 255⟩ < 0.7 := by rw [hlv]; norm_num
  have h := (C3_recolor_map (0, 0, 255) ⟨10, 10, 10, 255⟩).2.1 (by norm_num) hl
  refine ⟨by norm_num, hl, ?_⟩
  rw [h.1, hlv]
  norm_num [jsRound]
  decide

/-! ### Claim C6 -/

theorem searchLoop_budget (size : ℚ → ℕ) (minB maxB targetB : ℚ) :
    ∀ (fuel : ℕ) (st : SearchState),
      (searchLoop size minB maxB targetB fuel st).2.length ≤ fuel ∧
      ((searchLoop size minB maxB targetB fuel st).2.length = fuel ∨
        (searchLoop size minB maxB targetB fuel st).1.high -
          (searchLoop size minB maxB targetB fuel st).1.low ≤ 0.01) := by
  intro fuel
  induction fuel with
  | zero => intro st; exact ⟨Nat.le_refl 0, Or.inl rfl⟩
  | succ n ih =>
    intro st
    by_cases h : st.high - st.low > 0.01
    · rw [searchLoop, if_pos h]
      simp only [List.length_cons]
      obtain ⟨ih1, ih2⟩ := ih
        { low := if ((size ((st.low + st.high) / 2) : ℕ) : ℚ) < targetB then
            (st.low + st.high) / 2 else st.low
          high := if ((size ((st.low + st.high) / 2) : ℕ) : ℚ) < targetB then
            st.high else (st.low + st.high) / 2
          best := updateBest minB maxB targetB ((st.low + st.high) / 2)
            (size ((st.low + st.high) / 2)) st.best }
      refine ⟨Nat.succ_le_succ ih1, ?_⟩
      rcases ih2 with h1 | h2
      · exact Or.inl (by rw [h1])
      · exact Or.inr h2
    · rw [searchLoop, if_neg h]
      exact ⟨Nat.zero_le _, Or.inr (le_of_not_lt h)⟩

/-- Claim C6: the binary-search loop of `findOptimalQuality` encodes at
most 12 times, and it runs only while the quality interval is wider than
0.01 — at exit either the 12-attempt budget was spent or the final
interval width is ≤ 0.01. -/
theorem C6_search_budget (size : ℚ → ℕ) (minSizeKB maxSizeKB : ℕ) (qp : ℚ) :
    (findOptimalQuality size minSizeKB maxSizeKB qp).searchTrace.length ≤ 12 ∧
    ((findOptimalQuality size minSizeKB maxSizeKB qp).searchTrace.length = 12 ∨
      (findOptimalQuality size minSizeKB maxSizeKB qp).high -
        (findOptimalQuality size minSizeKB maxSizeKB qp).low ≤ 0.01) := by
  have h := searchLoop_budget size ((minSizeKB : ℚ) * 1024) ((maxSizeKB : ℚ) * 1024)
    ((minSizeKB : ℚ) * 1024 + ((maxSizeKB : ℚ) * 1024 - (minSizeKB : ℚ) * 1024) *
      normalizedPreference qp) 12 ⟨0.1, 1.0, none⟩
  simp only [findOptimalQuality]
  split
  · exact h
  · split
    · exact h
    · split
      · exact h
      · exact h

/-! ### Claim C8 -/

theorem getDateBandHeight_le (th : ℕ) : getDateBandHeight th ≤ th := by
  unfold getDateBandHeight jsRound
  have h0 : (0 : ℚ) ≤ (th : ℚ) := Nat.cast_nonneg th
  have h1 : ((th : ℚ) * 0.08 + 1/2) ≤ (th : ℚ) + 1/2 := by nlinarith
  have h2 : ⌊(th : ℚ) * 0.08 + 1/2⌋ ≤ ⌊(th : ℚ) + 1/2⌋ := Int.floor_le_floor h1
  have h3 : ⌊(th : ℚ) + 1/2⌋ = (th : ℤ) := by
    have h4 := jsRound_natCast th
    unfold jsRound at h4
    exact h4
  omega

/-- Claim C8: with `addDateBand` set the band height is exactly
`round(targetHeight * 0.08)`, the image content is drawn exactly into the
rows from `bandHeight` to `targetHeight` (the band plus the image area
add back up to `targetHeight`), and `targetHeight = 230` gives
`bandHeight = 18` and `imageAreaHeight = 212`. -/
theorem C8_date_band (srcW srcH : ℕ) (options : ProcessOptions) (today : JsDate)
    (encSize : Canvas → ℚ → ℕ) (hdate : options.addDate = true) :
    getDateBandHeight options.targetHeight ≤ options.targetHeight ∧
    getDateBandHeight options.targetHeight +
        (options.targetHeight - getDateBandHeight options.targetHeight) =
      options.targetHeight ∧
    (processImageWASM srcW srcH options today encSize).toOption.bind
        (fun r => (imageDrawOp r).bind opDestRect) =
      some ⟨0, (getDateBandHeight options.targetHeight : ℚ), (options.targetWidth : ℚ),
        ((options.targetHeight - getDateBandHeight options.targetHeight : ℕ) : ℚ)⟩ ∧
    getDateBandHeight 230 = 18 ∧ 230 - getDateBandHeight 230 = 212 := by
  have hle := getDateBandHeight_le options.targetHeight
  have h230 : getDateBandHeight 230 = 18 := by
    unfold getDateBandHeight jsRound
    norm_num
    decide
  refine ⟨hle, by omega, ?_, h230, by omega⟩
  cases hc : options.cropArea with
  | none =>
    simp [processImageWASM, Except.toOption, imageDrawOp, opDestRect, bandOf, hdate, hc]
  | some c =>
    simp [processImageWASM, Except.toOption, imageDrawOp, opDestRect, bandOf, hdate, hc]

/-- Witness for C8 at the spec's Scenario B (`targetHeight = 230`). -/
theorem C8_date_band_witness :
    optsDate.addDate = true ∧
    (processImageWASM 1000 1200 optsDate d0 encFixed).toOption.bind
        (fun r => (imageDrawOp r).bind opDestRect) = some ⟨0, 18, 200, 212⟩ ∧
    getDateBandHeight 230 = 18 ∧ 230 - getDateBandHeight 230 = 212 := by
  have h := C8_date_band 1000 1200 optsDate d0 encFixed rfl
  refine ⟨rfl, ?_, h.2.2.2⟩
  rw [h.2.2.1]
  norm_num [optsDate, h.2.2.2.1]

/-! ### Claim C10 -/

/-- Claim C10: a string that does not match the 6-hex-digit `RRGGBB`
pattern (optional leading `#`, case-insensitive) makes `hexToRgb` return
`(0, 0, 0)` rather than fail, so ink pixels (opaque, luminance below the
0.7 threshold) are recolored toward black: each channel becomes
`round(255 * (L / 0.7))`. -/
theorem C10_hex_fallback (s : String) (p : RGBA) (hmatch : matchesHexColor s = false) :
    hexToRgb s = (0, 0, 0) ∧
    (128 ≤ p.a → luminance p < 0.7 →
      recolorPixel (hexToRgb s) p =
        ⟨(jsRound (255 * (luminance p / 0.7))).toNat,
         (jsRound (255 * (luminance p / 0.7))).toNat,
         (jsRound (255 * (luminance p / 0.7))).toNat, 255⟩) := by
  have hz : hexToRgb s = (0, 0, 0) := by
    unfold hexToRgb
    split
    · next c1 c2 c3 c4 c5 c6 heq =>
      rw [matchesHexColor, heq] at hmatch
      have hall : [c1, c2, c3, c4, c5, c6].all isHexDigitChar = false := by
        simpa using hmatch
      simp [hall]
    · rfl
  refine ⟨hz, fun h128 hlum => ?_⟩
  rw [hz]
  have hna : ¬ p.a < 128 := by omega
  simp only [recolorPixel, if_neg hna, if_pos hlum, RGBA.mk.injEq]
  refine ⟨?_, ?_, ?_, trivial⟩ <;>
    · congr 1
      congr 1
      push_cast
      ring

/-- Witness for C10: the invalid color string leaves the recolorer total
and black-targeted. -/
theorem C10_hex_fallback_witness :
    matchesHexColor "notacolor" = false ∧ hexToRgb "notacolor" = (0, 0, 0) ∧
    recolorPixel (hexToRgb "notacolor") ⟨0, 0, 0, 255⟩ = ⟨0, 0, 0, 255⟩ := by
  have hm : matchesHexColor "notacolor" = false := by decide
  have h := C10_hex_fallback "notacolor" ⟨0, 0, 0, 255⟩ hm
  refine ⟨hm, h.1, ?_⟩
  have hl : luminance ⟨0, 0, 0, 255⟩ = 0 := by norm_num [luminance]
  have h2 := h.2 (by norm_num) (by rw [hl]; norm_num)
  rw [h2, hl]
  norm_num [jsRound]

/-! ### Claim C7 -/

/-- Counterexample to C7: a request with `minBytes > maxBytes` is not
rejected — the pipeline returns a result instead of failing with a
validation error. -/
theorem C7_counterexample :
    optsBad.minSizeKB * 1024 > optsBad.maxSizeKB * 1024 ∧
    isOkResult (processImageWASM 800 600 optsBad d0 encFixed) = true := by
  exact ⟨by decide, rfl⟩

/-- Claim C7 as amended: the pipeline performs no input validation — with
`minBytes > maxBytes` it still allocates the full `targetWidth ×
targetHeight` canvas, runs the encoder, and returns a result rather than
failing. -/
theorem C7_no_validation (srcW srcH : ℕ) (options : ProcessOptions) (today : JsDate)
    (encSize : Canvas → ℚ → ℕ) (hbad : options.maxSizeKB < options.minSizeKB) :
    isOkResult (processImageWASM srcW srcH options today encSize) = true ∧
    (processImageWASM srcW srcH options today encSize).toOption.map
        (fun r => (r.canvas.width, r.canvas.height)) =
      some (options.targetWidth, options.targetHeight) := ⟨rfl, rfl⟩

/-- Witness for the amended C7 on a concrete inverted byte range. -/
theorem C7_no_validation_witness :
    optsBad.maxSizeKB < optsBad.minSizeKB ∧
    isOkResult (processImageWASM 800 600 optsBad d0 encFixed) = true ∧
    (processImageWASM 800 600 optsBad d0 encFixed).toOption.map
        (fun r => (r.canvas.width, r.canvas.height)) = some (200, 230) := by
  have hb : optsBad.maxSizeKB < optsBad.minSizeKB := by decide
  have h := C7_no_validation 800 600 optsBad d0 encFixed hb
  exact ⟨hb, h.1, h.2⟩

/-! ### Claim C9 -/

/-- Counterexample to C9: with `addDateBand` set, two invocations of the
pipeline on the same file, options and codec but on different days
produce different final canvases (the band text renders the current
date). -/
theorem C9_counterexample :
    (processImageWASM 800 600 optsDate d0 encFixed).toOption.map
        (fun r => r.canvas) ≠
      (processImageWASM 800 600 optsDate d1 encFixed).toOption.map
        (fun r => r.canvas) := by
  intro h
  simp [processImageWASM, Except.toOption, drawDateBand, optsDate,
    show formatDate d0 ≠ formatDate d1 from by decide] at h

/-- Claim C9 as amended: the pipeline is deterministic in the source, the
options, the codec, and the current date; when `addDateBand` is unset the
current date is irrelevant, and two invocations whose dates format to the
same `DD-MM-YYYY` string produce identical results. -/
theorem C9_determinism (srcW srcH : ℕ) (options : ProcessOptions) (da db : JsDate)
    (encSize : Canvas → ℚ → ℕ)
    (h : options.addDate = false ∨ formatDate da = formatDate db) :
    processImageWASM srcW srcH options da encSize =
      processImageWASM srcW srcH options db encSize := by
  rcases h with h | h
  · simp [processImageWASM, h]
  · simp [processImageWASM, drawDateBand, h]

/-- Witness for the amended C9: without the date band, runs on different
days coincide. -/
theorem C9_determinism_witness :
    (optsPlain.addDate = false ∨ formatDate d0 = formatDate d1) ∧
    processImageWASM 800 600 optsPlain d0 encFixed =
      processImageWASM 800 600 optsPlain d1 encFixed := by
  have h : optsPlain.addDate = false ∨ formatDate d0 = formatDate d1 := Or.inl rfl
  exact ⟨h, C9_determinism 800 600 optsPlain d0 d1 encFixed h⟩

/-! ### Claim C4 -/

theorem findOptimalQuality_preference (size : ℚ → ℕ) (minKB maxKB : ℕ) (qp : ℚ) :
    (findOptimalQuality size minKB maxKB qp).preference = qp := by
  simp only [findOptimalQuality]
  split
  · rfl
  · split
    · rfl
    · split
      · rfl
      · rfl

theorem findOptimalQuality_target (size : ℚ → ℕ) (minKB maxKB : ℕ) (qp : ℚ) :
    (findOptimalQuality size minKB maxKB qp).target =
      (minKB : ℚ) * 1024 + ((maxKB : ℚ) * 1024 - (minKB : ℚ) * 1024) *
        max 0 (min 1 ((qp - 30) / 70)) := by
  simp only [findOptimalQuality, normalizedPreference]
  split
  · rfl
  · split
    · rfl
    · split
      · rfl
      · rfl

/-- Claim C4 as amended: every encode run targets
`minBytes + (maxBytes - minBytes) * clamp((pref - 30) / 70, 0, 1)` bytes,
where `pref` is the request's `qualityPreference` — but a request that
omits it is resolved to 85 by the orchestrator's `?? 85`, not to the 80
of the encoder's own (shadowed) parameter default. -/
theorem C4_target_bytes (srcW srcH : ℕ) (options : ProcessOptions) (today : JsDate)
    (encSize : Canvas → ℚ → ℕ) :
    (processImageWASM srcW srcH options today encSize).toOption.map
        (fun r => (r.blob.target, r.blob.preference)) =
      some ((options.minSizeKB : ℚ) * 1024 +
          ((options.maxSizeKB : ℚ) * 1024 - (options.minSizeKB : ℚ) * 1024) *
            max 0 (min 1 ((options.qualityPreference.getD 85 - 30) / 70)),
        options.qualityPreference.getD 85) := by
  simp only [processImageWASM, Except.toOption, Option.map_some', Option.some.injEq,
    Prod.mk.injEq]
  exact ⟨findOptimalQuality_target _ _ _ _, findOptimalQuality_preference _ _ _ _⟩

/-- Counterexample to C4: a request that omits `qualityPreference` is
encoded with preference 85, not the claimed default 80. -/
theorem C4_counterexample :
    optsPlain.qualityPreference = none ∧
    (processImageWASM 800 600 optsPlain d0 encFixed).toOption.map
        (fun r => r.blob.preference) = some 85 ∧ (85 : ℚ) ≠ 80 := by
  refine ⟨rfl, ?_, by norm_num⟩
  simp only [processImageWASM, Except.toOption, Option.map_some', Option.some.injEq]
  rw [findOptimalQuality_preference]
  rfl

/-! ### Claim C2 -/

/-- Counterexample to C2: in the createImageBitmap path (the embedded
primary strategy), a request with no crop rectangle draws the WHOLE
source — here all of a 1000×500 bitmap — into the reserved region of a
100×100 target, instead of the center-crop rectangle
`(250, 0, 500, 500)` the claim requires for the ratio 100/100. -/
theorem C2_counterexample :
    optsNoCrop.cropArea = none ∧
    (processImageWASM 1000 500 optsNoCrop d0 encFixed).toOption.bind
        (fun r => (imageDrawOp r).bind opSrcRect) = some ⟨0, 0, 1000, 500⟩ ∧
    strategy2CenterCrop 1000 500 ((100 : ℚ) / 100) = ⟨250, 0, 500, 500⟩ ∧
    (⟨0, 0, 1000, 500⟩ : Rect) ≠ ⟨250, 0, 500, 500⟩ := by
  refine ⟨rfl, ?_, ?_, ?_⟩
  · norm_num [processImageWASM, Except.toOption, imageDrawOp, opSrcRect, optsNoCrop]
  · norm_num [strategy2CenterCrop]
  · norm_num [Rect.mk.injEq]

/-- Claim C2 as amended: with no crop rectangle the createImageBitmap
path stretches the whole source into the reserved image area
`[0, bandHeight, targetWidth, imageAreaHeight]`; the described
center-crop — whose rectangle preserves the target ratio, is centered,
and stays inside the source — is computed only by the Canvas-API
fallback path. -/
theorem C2_no_crop_paths (srcW srcH : ℕ) (options : ProcessOptions) (today : JsDate)
    (encSize : Canvas → ℚ → ℕ) (hcrop : options.cropArea = none) :
    ((processImageWASM srcW srcH options today encSize).toOption.bind
        (fun r => (imageDrawOp r).bind opSrcRect) =
          some ⟨0, 0, (srcW : ℚ), (srcH : ℚ)⟩ ∧
      (processImageWASM srcW srcH options today encSize).toOption.bind
        (fun r => (imageDrawOp r).bind opDestRect) =
          some ⟨0, (bandOf options : ℚ), (options.targetWidth : ℚ),
            ((options.targetHeight - bandOf options : ℕ) : ℚ)⟩) ∧
    (∀ sw sh tr : ℚ, 0 < sw → 0 < sh → 0 < tr →
      (strategy2CenterCrop sw sh tr).w / (strategy2CenterCrop sw sh tr).h = tr ∧
      (strategy2CenterCrop sw sh tr).x = (sw - (strategy2CenterCrop sw sh tr).w) / 2 ∧
      (strategy2CenterCrop sw sh tr).y = (sh - (strategy2CenterCrop sw sh tr).h) / 2 ∧
      (strategy2CenterCrop sw sh tr).w ≤ sw ∧ (strategy2CenterCrop sw sh tr).h ≤ sh) := by
  constructor
  · constructor
    · simp [processImageWASM, Except.toOption, imageDrawOp, opSrcRect, hcrop]
    · simp [processImageWASM, Except.toOption, imageDrawOp, opDestRect, hcrop]
  · intro sw sh tr hsw hsh htr
    have hsw' : sw ≠ 0 := ne_of_gt hsw
    have hsh' : sh ≠ 0 := ne_of_gt hsh
    have htr' : tr ≠ 0 := ne_of_gt htr
    simp only [strategy2CenterCrop]
    by_cases hgt : sw / sh > tr
    · rw [if_pos hgt]
      have hswbig : tr * sh < sw := (lt_div_iff hsh).mp hgt
      refine ⟨?_, rfl, by ring, by nlinarith, le_refl sh⟩
      rw [mul_comm, mul_div_assoc, div_self hsh', mul_one]
    · rw [if_neg hgt]
      push_neg at hgt
      have hswle : sw ≤ tr * sh := (div_le_iff hsh).mp hgt
      refine ⟨?_, by ring, rfl, le_refl sw, ?_⟩
      · field_simp
      · rw [div_le_iff htr]
        nlinarith

/-- Witness for the amended C2 at a concrete wide source. -/
theorem C2_no_crop_paths_witness :
    optsNoCrop.cropArea = none ∧
    (processImageWASM 1000 500 optsNoCrop d0 encFixed).toOption.bind
        (fun r => (imageDrawOp r).bind opSrcRect) = some ⟨0, 0, 1000, 500⟩ ∧
    (strategy2CenterCrop 1000 500 1).w / (strategy2CenterCrop 1000 500 1).h = 1 := by
  have h := C2_no_crop_paths 1000 500 optsNoCrop d0 encFixed rfl
  refine ⟨rfl, ?_, (h.2 1000 500 1 (by norm_num) (by norm_num) (by norm_num)).1⟩
  rw [h.1.1]
  norm_num

/-! ### Claim C5 -/

theorem searchLoop_bounds (size : ℚ → ℕ) (minB maxB targetB : ℚ) :
    ∀ (fuel : ℕ) (st : SearchState), 0.1 ≤ st.low → st.high ≤ 1 → st.low < st.high →
      0.1 ≤ (searchLoop size minB maxB targetB fuel st).1.low ∧
      (searchLoop size minB maxB targetB fuel st).1.high ≤ 1 ∧
      (searchLoop size minB maxB targetB fuel st).1.low <
        (searchLoop size minB maxB targetB fuel st).1.high := by
  intro fuel
  induction fuel with
  | zero => intro st h1 h2 h3; exact ⟨h1, h2, h3⟩
  | succ n ih =>
    intro st h1 h2 h3
    by_cases h : st.high - st.low > 0.01
    · rw [searchLoop, if_pos h]
      by_cases hd : ((size ((st.low + st.high) / 2) : ℕ) : ℚ) < targetB
      · simp only [if_pos hd]
        apply ih
        · dsimp only
          linarith
        · dsimp only
          exact h2
        · dsimp only
          linarith
      · simp only [if_neg hd]
        apply ih
        · dsimp only
          exact h1
        · dsimp only
          linarith
        · dsimp only
          linarith
    · rw [searchLoop, if_neg h]
      exact ⟨h1, h2, h3⟩

theorem updateBest_mem (minB maxB targetB q : ℚ) (s : ℕ) (best : Option (ℚ × ℕ))
    (hinv : ∀ p, best = some p → minB ≤ (p.2 : ℚ) ∧ (p.2 : ℚ) ≤ maxB) :
    ∀ p, updateBest minB maxB targetB q s best = some p →
      minB ≤ (p.2 : ℚ) ∧ (p.2 : ℚ) ≤ maxB := by
  intro p hp
  unfold updateBest at hp
  split at hp
  · next hin =>
    split at hp
    · obtain rfl : (q, s) = p := Option.some.inj hp
      exact hin
    · next p0 =>
      split at hp
      · obtain rfl : (q, s) = p := Option.some.inj hp
        exact hin
      · exact hinv p hp
  · exact hinv p hp

theorem searchLoop_best (size : ℚ → ℕ) (minB maxB targetB : ℚ) :
    ∀ (fuel : ℕ) (st : SearchState),
      (∀ p, st.best = some p → minB ≤ (p.2 : ℚ) ∧ (p.2 : ℚ) ≤ maxB) →
      ∀ p, (searchLoop size minB maxB targetB fuel st).1.best = some p →
        minB ≤ (p.2 : ℚ) ∧ (p.2 : ℚ) ≤ maxB := by
  intro fuel
  induction fuel with
  | zero => intro st hinv; exact hinv
  | succ n ih =>
    intro st hinv
    by_cases h : st.high - st.low > 0.01
    · rw [searchLoop, if_pos h]
      apply ih
      dsimp only
      exact updateBest_mem _ _ _ _ _ _ hinv
    · rw [searchLoop, if_neg h]
      exact hinv

theorem decreaseLoop_exit (size : ℚ → ℕ) (maxB : ℚ) :
    ∀ (n : ℕ) (q : ℚ) (cur : ℕ), (⌈(q - 0.1) * 20⌉).toNat ≤ n →
      ((decreaseLoop size maxB q cur).1.2 : ℚ) ≤ maxB ∨
        (decreaseLoop size maxB q cur).1.1 ≤ 0.1 := by
  intro n
  induction n with
  | zero =>
    intro q cur hm
    rw [decreaseLoop]
    split
    · next h =>
      exfalso
      have h1 : (0 : ℚ) < (q - 0.1) * 20 := by nlinarith [h.1]
      have h2 : (1 : ℤ) ≤ ⌈(q - 0.1) * 20⌉ := Int.ceil_pos.mpr h1
      omega
    · next h =>
      push_neg at h
      rcases le_or_lt q 0.1 with hq | hq
      · exact Or.inr hq
      · exact Or.inl (h hq)
  | succ n ih =>
    intro q cur hm
    rw [decreaseLoop]
    split
    · next h =>
      have h1 : (0 : ℚ) < (q - 0.1) * 20 := by nlinarith [h.1]
      have h2 : (1 : ℤ) ≤ ⌈(q - 0.1) * 20⌉ := Int.ceil_pos.mpr h1
      have h3 : (q - 0.05 - 0.1) * 20 = (q - 0.1) * 20 - 1 := by ring
      have h4 : ⌈(q - 0.05 - 0.1) * 20⌉ = ⌈(q - 0.1) * 20⌉ - 1 := by
        rw [h3, Int.ceil_sub_one]
      exact ih _ _ (by omega)
    · next h =>
      push_neg at h
      rcases le_or_lt q 0.1 with hq | hq
      · exact Or.inr hq
      · exact Or.inl (h hq)

theorem decreaseLoop_trace (size : ℚ → ℕ) (maxB : ℚ) :
    ∀ (n : ℕ) (q : ℚ) (cur : ℕ), (⌈(q - 0.1) * 20⌉).toNat ≤ n →
      ∀ x ∈ (decreaseLoop size maxB q cur).2, 0.05 < x ∧ x < q := by
  intro n
  induction n with
  | zero =>
    intro q cur hm
    rw [decreaseLoop]
    split
    · next h =>
      exfalso
      have h1 : (0 : ℚ) < (q - 0.1) * 20 := by nlinarith [h.1]
      have h2 : (1 : ℤ) ≤ ⌈(q - 0.1) * 20⌉ := Int.ceil_pos.mpr h1
      omega
    · simp
  | succ n ih =>
    intro q cur hm
    rw [decreaseLoop]
    split
    · next h =>
      have h1 : (0 : ℚ) < (q - 0.1) * 20 := by nlinarith [h.1]
      have h2 : (1 : ℤ) ≤ ⌈(q - 0.1) * 20⌉ := Int.ceil_pos.mpr h1
      have h4 : ⌈(q - 0.05 - 0.1) * 20⌉ = ⌈(q - 0.1) * 20⌉ - 1 := by
        rw [show (q - 0.05 - 0.1) * 20 = (q - 0.1) * 20 - 1 from by ring, Int.ceil_sub_one]
      intro x hx
      rcases List.mem_cons.mp hx with rfl | hx2
      · constructor
        · have := h.1
          linarith
        · have := h.1
          linarith
      · have hrec := ih (q - 0.05) (size (q - 0.05)) (by omega) x hx2
        exact ⟨hrec.1, by linarith [hrec.2]⟩
    · simp
  
theorem increaseLoop_le_max (size : ℚ → ℕ) (minB maxB : ℚ) :
    ∀ (n : ℕ) (q bq : ℚ) (cur : ℕ), (⌈(1 - q) * 20⌉).toNat ≤ n → (cur : ℚ) ≤ maxB →
      ((increaseLoop size minB maxB q bq cur).1.2 : ℚ) ≤ maxB := by
  intro n
  induction n with
  | zero =>
    intro q bq cur hm hcur
    rw [increaseLoop]
    split
    · next h =>
      exfalso
      have h1 : (0 : ℚ) < (1 - q) * 20 := by nlinarith [h.1]
      have h2 : (1 : ℤ) ≤ ⌈(1 - q) * 20⌉ := Int.ceil_pos.mpr h1
      omega
    · exact hcur
  | succ n ih =>
    intro q bq cur hm hcur
    rw [increaseLoop]
    split
    · next h =>
      have h1 : (0 : ℚ) < (1 - q) * 20 := by nlinarith [h.1]
      have h2 : (1 : ℤ) ≤ ⌈(1 - q) * 20⌉ := Int.ceil_pos.mpr h1
      have h4 : ⌈(1 - (q + 0.05)) * 20⌉ = ⌈(1 - q) * 20⌉ - 1 := by
        rw [show (1 - (q + 0.05)) * 20 = (1 - q) * 20 - 1 from by ring, Int.ceil_sub_one]
      dsimp only
      split
      · next hacc =>
        exact ih _ _ _ (by omega) hacc
      · exact hcur
    · exact hcur

theorem increaseLoop_trace (size : ℚ → ℕ) (minB maxB : ℚ) :
    ∀ (n : ℕ) (q bq : ℚ) (cur : ℕ), (⌈(1 - q) * 20⌉).toNat ≤ n →
      ∀ x ∈ (increaseLoop size minB maxB q bq cur).2, q < x ∧ x < 1.05 := by
  intro n
  induction n with
  | zero =>
    intro q bq cur hm
    rw [increaseLoop]
    split
    · next h =>
      exfalso
      have h1 : (0 : ℚ) < (1 - q) * 20 := by nlinarith [h.1]
      have h2 : (1 : ℤ) ≤ ⌈(1 - q) * 20⌉ := Int.ceil_pos.mpr h1
      omega
    · simp
  | succ n ih =>
    intro q bq cur hm
    rw [increaseLoop]
    split
    · next h =>
      have h1 : (0 : ℚ) < (1 - q) * 20 := by nlinarith [h.1]
      have h2 : (1 : ℤ) ≤ ⌈(1 - q) * 20⌉ := Int.ceil_pos.mpr h1
      have h4 : ⌈(1 - (q + 0.05)) * 20⌉ = ⌈(1 - q) * 20⌉ - 1 := by
        rw [show (1 - (q + 0.05)) * 20 = (1 - q) * 20 - 1 from by ring, Int.ceil_sub_one]
      dsimp only
      split
      · next hacc =>
        intro x hx
        rcases List.mem_cons.mp hx with rfl | hx2
        · constructor
          · linarith
          · have := h.1
            linarith
        · have hrec := ih (q + 0.05) (q + 0.05) (size (q + 0.05)) (by omega) x hx2
          exact ⟨by linarith [hrec.1], hrec.2⟩
      · intro x hx
        rcases List.mem_cons.mp hx with rfl | hx2
        · constructor
          · linarith
          · have := h.1
            linarith
        · simp at hx2
    · simp

/-- Claim C5 as amended: when the binary search records no in-bounds
blob, the encoder encodes once at the final midpoint; the fallback loops
then step the quality by 0.05 while the PRE-STEP quality is above 0.1
(respectively below 1.0), so every fallback encode happens at a quality
in (0.05, 1.05) — qualities strictly below 0.1 are possible — the
decrease phase ends with a blob of at most maxBytes or a quality at or
below 0.1, and (given minBytes ≤ maxBytes) the increase phase never
accepts a blob above maxBytes, so the returned blob is within maxBytes
or was produced at a quality at or below 0.1. -/
theorem C5_fallback_policy (size : ℚ → ℕ) (minKB maxKB : ℕ) (qp : ℚ) (hk : minKB ≤ maxKB) :
    ((findOptimalQuality size minKB maxKB qp).best = none →
      (findOptimalQuality size minKB maxKB qp).fallbackTrace.head? =
        some (((findOptimalQuality size minKB maxKB qp).low +
          (findOptimalQuality size minKB maxKB qp).high) / 2)) ∧
    (∀ x ∈ (findOptimalQuality size minKB maxKB qp).fallbackTrace,
      0.05 < x ∧ x < 1.05) ∧
    (((findOptimalQuality size minKB maxKB qp).size : ℚ) ≤ (maxKB : ℚ) * 1024 ∨
      (findOptimalQuality size minKB maxKB qp).quality ≤ 0.1) := by
  have hkq : ((minKB : ℚ) * 1024) ≤ ((maxKB : ℚ) * 1024) := by
    have hc : (minKB : ℚ) ≤ (maxKB : ℚ) := Nat.cast_le.mpr hk
    nlinarith
  have hbounds := searchLoop_bounds size ((minKB : ℚ) * 1024) ((maxKB : ℚ) * 1024)
    ((minKB : ℚ) * 1024 + ((maxKB : ℚ) * 1024 - (minKB : ℚ) * 1024) * normalizedPreference qp)
    12 ⟨0.1, 1.0, none⟩ (by norm_num) (by norm_num) (by norm_num)
  have hbest := searchLoop_best size ((minKB : ℚ) * 1024) ((maxKB : ℚ) * 1024)
    ((minKB : ℚ) * 1024 + ((maxKB : ℚ) * 1024 - (minKB : ℚ) * 1024) * normalizedPreference qp)
    12 ⟨0.1, 1.0, none⟩ (by intro p hp; simp at hp)
  obtain ⟨hb1, hb2, hb3⟩ := hbounds
  simp only [findOptimalQuality]
  split
  · next p heq =>
    refine ⟨?_, by simp, Or.inl (hbest p heq).2⟩
    intro hno
    dsimp only at hno
    rw [heq] at hno
    exact Option.noConfusion hno
  · next heq =>
    refine ⟨?_, ?_, ?_⟩
    · split
      · intro _
        rfl
      · split
        · intro _
          rfl
        · intro _
          rfl
    · split
      · next hc1 =>
        intro x hx
        rcases List.mem_cons.mp hx with rfl | hx2
        · constructor
          · linarith
          · linarith
        · have hrec := decreaseLoop_trace size _ _ _ _ le_rfl x hx2
          exact ⟨hrec.1, by linarith [hrec.2]⟩
      · split
        · next hc2 =>
          intro x hx
          rcases List.mem_cons.mp hx with rfl | hx2
          · constructor
            · linarith
            · linarith
          · have hrec := increaseLoop_trace size _ _ _ _ _ _ le_rfl x hx2
            refine ⟨by linarith [hrec.1], hrec.2⟩
        · intro x hx
          rcases List.mem_cons.mp hx with rfl | hx2
          · constructor
            · linarith
            · linarith
          · simp at hx2
    · split
      · exact decreaseLoop_exit size _ _ _ _ le_rfl
      · next hc1 =>
        split
        · next hc2 =>
          exact Or.inl (increaseLoop_le_max size _ _ _ _ _ _ le_rfl
            (le_of_lt (lt_of_lt_of_le hc2 hkq)))
        · exact Or.inl (le_of_not_lt hc1)

/-- Counterexample to C5: with an incompressible canvas (every quality
encodes to a gigabyte) the search finds no in-bounds blob, ends with
bounds `[0.1, 137/1280]`, encodes the final midpoint `53/512 ≈ 0.1035`,
and the decrease loop then encodes at `53/512 - 0.05 = 137/2560 ≈ 0.0535`
— a quality strictly below 0.1, which the claim says never happens. -/
theorem C5_counterexample :
    (findOptimalQuality constBillion 10 50 80).fallbackTrace = [53/512, 137/2560] ∧
    (137 / 2560 : ℚ) < 0.1 := by
  have hs : searchLoop constBillion (((10 : ℕ) : ℚ) * 1024) (((50 : ℕ) : ℚ) * 1024)
      ((((10 : ℕ) : ℚ) * 1024) + ((((50 : ℕ) : ℚ) * 1024) - (((10 : ℕ) : ℚ) * 1024)) *
        normalizedPreference 80) 12 ⟨0.1, 1.0, none⟩ =
      (⟨0.1, 137/1280, none⟩, [11/20, 13/40, 17/80, 5/32, 41/320, 73/640, 137/1280]) := by
    rw [searchLoop]
    norm_num [updateBest, constBillion, normalizedPreference]
    rw [searchLoop]
    norm_num [updateBest, constBillion]
    rw [searchLoop]
    norm_num [updateBest, constBillion]
    rw [searchLoop]
    norm_num [updateBest, constBillion]
    rw [searchLoop]
    norm_num [updateBest, constBillion]
    rw [searchLoop]
    norm_num [updateBest, constBillion]
    rw [searchLoop]
    norm_num [updateBest, constBillion]
    rw [searchLoop]
    norm_num
  have hd : decreaseLoop constBillion 51200 (53/512) 1000000000 =
      ((137/2560, 1000000000), [137/2560]) := by
    rw [decreaseLoop]
    norm_num [constBillion]
    rw [decreaseLoop]
    norm_num
  refine ⟨?_, by norm_num⟩
  simp only [findOptimalQuality, hs]
  norm_num [constBillion]
  rw [hd]

/-- Witness for the amended C5 at a concrete run with `minKB ≤ maxKB`. -/
theorem C5_fallback_policy_witness :
    (10 : ℕ) ≤ 50 ∧
    (∀ x ∈ (findOptimalQuality constBillion 10 50 80).fallbackTrace,
      0.05 < x ∧ x < 1.05) ∧
    (((findOptimalQuality constBillion 10 50 80).size : ℚ) ≤ ((50 : ℕ) : ℚ) * 1024 ∨
      (findOptimalQuality constBillion 10 50 80).quality ≤ 0.1) := by
  have h := C5_fallback_policy constBillion 10 50 80 (by norm_num)
  exact ⟨by norm_num, h.2.1, h.2.2⟩
